import Mathlib

/-!
Shallow embedding of the core of `mitre-mapping.py`: the command classifier
(`map_command_to_mitre`, lines 52–97), the technique resolver (lines 99–119)
and the history analyzer (`analyze_bash_history`, lines 122–137).

Strings are modelled over their character lists; Python whitespace and the
regex classes `\s`, `.`, `\w` are modelled over their ASCII members.  The
in-place update `info['solutions'] = ...` (line 115) mutates the shared
record of `mitre_data['objects']`, so the resolver is modelled by explicit
state passing of the object list; the possible `IndexError` from
`item.get("external_references", [{}])[0]` (line 104) is modelled with
`Except Unit`.
-/

namespace MitreMapping

/-- ASCII whitespace: the characters stripped by `str.strip` and matched by
the regex class `\s`. -/
def isPySpace (c : Char) : Bool :=
  c == ' ' || c == '\t' || c == '\n' || c == '\r' ||
    c == Char.ofNat 11 || c == Char.ofNat 12

/-- Characters matched by `.` in a Python regex without `re.DOTALL`:
everything except a newline. -/
def isDotChar (c : Char) : Bool :=
  !(c == '\n')

/-- Word characters of the regex class `\w` (ASCII part). -/
def isWordChar (c : Char) : Bool :=
  c.isAlphanum || c == '_'

/-- Remove trailing whitespace, as the right half of Python `str.strip`. -/
def dropTrail (s : List Char) : List Char :=
  (s.reverse.dropWhile isPySpace).reverse

/-- Python `str.strip()` on a character list. -/
def pyStripList (s : List Char) : List Char :=
  dropTrail (s.dropWhile isPySpace)

/-- Python `str.strip()`. -/
def pyStrip (s : String) : String :=
  String.mk (pyStripList s.data)

/-! Continuation-style matchers for the anchored regular expressions of the
classifier.  Each matcher consumes a prefix of the input and hands the rest
to the continuation `k`; the whole pattern ends with `endAnchor`, the
semantics of `$` (end of input, or just before a final newline). -/

/-- Kleene star over a character class: try every split of a maximal run. -/
def matchStar (p : Char → Bool) (k : List Char → Bool) : List Char → Bool
  | [] => k []
  | c :: r => k (c :: r) || (p c && matchStar p k r)

/-- Literal string match. -/
def matchLit (l : List Char) (k : List Char → Bool) (s : List Char) : Bool :=
  match l, s with
  | [], s => k s
  | _ :: _, [] => false
  | a :: l', c :: s' => a == c && matchLit l' k s'

/-- Single character of a class. -/
def matchCls (p : Char → Bool) (k : List Char → Bool) : List Char → Bool
  | [] => false
  | c :: r => p c && k r

/-- One or more characters of a class (`\s+` and friends). -/
def matchPlus (p : Char → Bool) (k : List Char → Bool) : List Char → Bool :=
  matchCls p (matchStar p k)

/-- Python `$` without `re.MULTILINE`: end of the string, or a position just
before a terminal newline. -/
def endAnchor : List Char → Bool
  | [] => true
  | [c] => c == '\n'
  | _ :: _ :: _ => false

/-- Tail `\s*$` of the bare-verb patterns. -/
def tailBare : List Char → Bool :=
  matchStar isPySpace endAnchor

/-- Tail `\s+.*$` of the argument-requiring patterns. -/
def tailArgs : List Char → Bool :=
  matchPlus isPySpace (matchStar isDotChar endAnchor)

/-- Tail `(\s+.*)?$` of the optional-argument patterns. -/
def tailOptArgs (s : List Char) : Bool :=
  endAnchor s || tailArgs s

/-- `^\s*cd(\s+.*)?$` (line 57). -/
def reCd : List Char → Bool :=
  matchStar isPySpace (matchLit "cd".data tailOptArgs)

/-- `^\s*ls(\s+.*)?$` (line 59). -/
def reLs : List Char → Bool :=
  matchStar isPySpace (matchLit "ls".data tailOptArgs)

/-- `^\s*cat\s+.*$` (line 61). -/
def reCat : List Char → Bool :=
  matchStar isPySpace (matchLit "cat".data tailArgs)

/-- `^\s*echo\s+.*>\s*\.zsh_history\s*$` (line 68). -/
def reEchoHistory : List Char → Bool :=
  matchStar isPySpace (matchLit "echo".data (matchPlus isPySpace
    (matchStar isDotChar (matchLit ">".data (matchStar isPySpace
      (matchLit ".zsh_history".data tailBare))))))

/-- `^\s*whoami\s*$` (line 70). -/
def reWhoami : List Char → Bool :=
  matchStar isPySpace (matchLit "whoami".data tailBare)

/-- `^\s*clear\s*$` (line 72). -/
def reClear : List Char → Bool :=
  matchStar isPySpace (matchLit "clear".data tailBare)

/-- `^\s*uname(\s+.*)?$` (line 74). -/
def reUname : List Char → Bool :=
  matchStar isPySpace (matchLit "uname".data tailOptArgs)

/-- `^\s*sudo(\s+.*)?$` (line 76). -/
def reSudo : List Char → Bool :=
  matchStar isPySpace (matchLit "sudo".data tailOptArgs)

/-- `^\s*history(\s+.*)?$` (line 78). -/
def reHistory : List Char → Bool :=
  matchStar isPySpace (matchLit "history".data tailOptArgs)

/-- `^\s*(poweroff|reboot)\s*$` (line 80). -/
def rePoweroffReboot : List Char → Bool :=
  matchStar isPySpace (fun s =>
    matchLit "poweroff".data tailBare s || matchLit "reboot".data tailBare s)

/-- `^\s*(wget|curl)\s+.*$` (line 82). -/
def reWgetCurl : List Char → Bool :=
  matchStar isPySpace (fun s =>
    matchLit "wget".data tailArgs s || matchLit "curl".data tailArgs s)

/-- `^\s*(netstat|ss)(\s+.*)?$` (line 84). -/
def reNetstatSs : List Char → Bool :=
  matchStar isPySpace (fun s =>
    matchLit "netstat".data tailOptArgs s || matchLit "ss".data tailOptArgs s)

/-- `^\s*(chmod|chown)\s+.*$` (line 86). -/
def reChmodChown : List Char → Bool :=
  matchStar isPySpace (fun s =>
    matchLit "chmod".data tailArgs s || matchLit "chown".data tailArgs s)

/-- `^\s*(find|grep)\s+.*$` (line 88). -/
def reFindGrep : List Char → Bool :=
  matchStar isPySpace (fun s =>
    matchLit "find".data tailArgs s || matchLit "grep".data tailArgs s)

/-- `^\s*systemctl\s+.*$` (line 90). -/
def reSystemctl : List Char → Bool :=
  matchStar isPySpace (matchLit "systemctl".data tailArgs)

/-- `^\s*(ps|top)(\s+.*)?$` (line 92). -/
def rePsTop : List Char → Bool :=
  matchStar isPySpace (fun s =>
    matchLit "ps".data tailOptArgs s || matchLit "top".data tailOptArgs s)

/-- `^\s*(traceroute|ping)\s+.*$` (line 94). -/
def reTraceroutePing : List Char → Bool :=
  matchStar isPySpace (fun s =>
    matchLit "traceroute".data tailArgs s || matchLit "ping".data tailArgs s)

/-- Position right after a `\b`-terminated word: end of input or a non-word
character. -/
def afterBoundary : List Char → Bool
  | [] => true
  | c :: _ => !isWordChar c

/-- Match of `w` followed by a word boundary at the head of `s`. -/
def startsWithWord (w : List Char) (s : List Char) : Bool :=
  match w, s with
  | [], s => afterBoundary s
  | _ :: _, [] => false
  | a :: w', c :: s' => a == c && startsWithWord w' s'

/-- Scan for `\b w \b` anywhere; `prevOk` records whether the position after
the already-consumed prefix is a word boundary for a word-starting `w`. -/
def hasWordFrom (w : List Char) (prevOk : Bool) : List Char → Bool
  | [] => false
  | c :: r => (prevOk && startsWithWord w (c :: r)) || hasWordFrom w (!isWordChar c) r

/-- `re.search(r'\b w \b', s)` for a word `w` made of word characters
(lines 62 and 64 use `w = passwd` and `w = sudoers`). -/
def hasWord (w : String) (s : List Char) : Bool :=
  hasWordFrom w.data true s

/-- Classification chain of `map_command_to_mitre` (lines 53–97): strip the
command, then run the `elif` ladder of anchored patterns; the `clear` branch
returns the empty list, the final `else` appends the "Unknown" sentinel. -/
def classify (command : String) : List String :=
  let c := pyStripList command.data
  if reCd c then ["T1083"]
  else if reLs c then ["T1083"]
  else if reCat c then
    if hasWord "passwd" c then ["T1005", "T1087"]
    else if hasWord "sudoers" c then ["T1005", "T1087"]
    else ["T1005"]
  else if reEchoHistory c then ["T1070"]
  else if reWhoami c then ["T1078"]
  else if reClear c then []
  else if reUname c then ["T1005"]
  else if reSudo c then ["T1078"]
  else if reHistory c then ["T1059"]
  else if rePoweroffReboot c then ["T1086"]
  else if reWgetCurl c then ["T1105"]
  else if reNetstatSs c then ["T1049"]
  else if reChmodChown c then ["T1070"]
  else if reFindGrep c then ["T1083"]
  else if reSystemctl c then ["T1060"]
  else if rePsTop c then ["T1083"]
  else if reTraceroutePing c then ["T1069"]
  else ["Unknown"]

/-- One element of an `external_references` list: a JSON object with an
optional `external_id` string. -/
structure ExtRef where
  external_id : Option String := none
deriving DecidableEq, Repr

/-- One record of `mitre_data['objects']`, restricted to the fields the core
reads or writes; `none` models an absent key. -/
structure Item where
  external_references : Option (List ExtRef) := none
  name : Option String := none
  description : Option String := none
  solutions : Option (List String) := none
deriving DecidableEq, Repr

/-- Prefix test on character lists. -/
def isPrefixL : List Char → List Char → Bool
  | [], _ => true
  | _ :: _, [] => false
  | a :: n', c :: h' => a == c && isPrefixL n' h'

/-- Substring test on character lists. -/
def isInfixL (n : List Char) : List Char → Bool
  | [] => isPrefixL n []
  | c :: h' => isPrefixL n (c :: h') || isInfixL n h'

/-- Python `needle in hay` on strings: substring containment (line 104). -/
def strIn (needle hay : String) : Bool :=
  isInfixL needle.data hay.data

/-- `item.get("external_references", [{}])[0].get("external_id", "")`
(line 104): an absent key defaults to `[{}]` hence the empty identifier; a
present but empty list raises `IndexError`, modelled as an error. -/
def primaryExtId (item : Item) : Except Unit String :=
  match item.external_references with
  | none => Except.ok ""
  | some [] => Except.error ()
  | some (r :: _) => Except.ok (r.external_id.getD "")

/-- Lazy scan of the generator inside `next(...)` (lines 101–105): the index
of the first object whose primary external identifier contains the technique
id, stopping at the first match, erring when an inspected object has an
empty `external_references` list. -/
def findMatchIdx (t : String) : List Item → Except Unit (Option Nat)
  | [] => Except.ok none
  | item :: rest =>
    match primaryExtId item with
    | Except.error e => Except.error e
    | Except.ok ext =>
      if strIn t ext then Except.ok (some 0)
      else (findMatchIdx t rest).map (Option.map (fun n => n + 1))

/-- Default record of `next(...)` (lines 106–110). -/
def placeholderItem : Item :=
  { external_references := none
    name := some "Unknown Technique"
    description := some "No description available."
    solutions := some ["No solutions available."] }

/-- Python falsiness of `info.get('solutions')` (line 114): an absent key or
an empty list. -/
def solFalsy : Option (List String) → Bool
  | none => true
  | some [] => true
  | some (_ :: _) => false

/-- In-place update `info['solutions'] = [info.get('description', ...)]`
(line 115). -/
def mutateItem (a : Item) : Item :=
  { a with solutions := some [a.description.getD "No description available."] }

/-- Lines 114–115: set the solutions fallback when they are falsy. -/
def applyFallback (info : Item) : Item :=
  if solFalsy info.solutions then mutateItem info else info

/-- Resolution of one technique id (lines 100–117 loop body): look up the
first containing object, apply the solutions fallback — which, on a matched
object, mutates the dataset record in place — and return the record together
with the updated object list. -/
def resolveOne (t : String) (objs : List Item) : Except Unit (Item × List Item) :=
  match findMatchIdx t objs with
  | Except.error e => Except.error e
  | Except.ok none => Except.ok (applyFallback placeholderItem, objs)
  | Except.ok (some i) =>
    let item := applyFallback (objs.getD i placeholderItem)
    Except.ok (item, objs.set i item)

/-- The `for technique in techniques` loop (lines 100–117), threading the
mutable object list through the iterations. -/
def resolveAll (ts : List String) (objs : List Item) :
    Except Unit (List Item × List Item) :=
  match ts with
  | [] => Except.ok ([], objs)
  | t :: ts' =>
    match resolveOne t objs with
    | Except.error e => Except.error e
    | Except.ok (info, objs₁) =>
      match resolveAll ts' objs₁ with
      | Except.error e => Except.error e
      | Except.ok (infos, objs₂) => Except.ok (info :: infos, objs₂)

/-- `map_command_to_mitre` (lines 52–119): classify, then resolve every
returned technique id.  The early `return []` of the `clear` branch
coincides with resolving the empty list. -/
def map_command_to_mitre (command : String) (objs : List Item) :
    Except Unit (List Item × List Item) :=
  resolveAll (classify command) objs

/-- One entry of the analysis results (lines 132–135). -/
structure ClassifiedCommand where
  command : String
  techniques : List Item
deriving DecidableEq, Repr

/-- Python `line.split(';')`: split on every semicolon, keeping empty
segments, with `[""]` for the empty string. -/
def splitSemi : List Char → List (List Char)
  | [] => [[]]
  | c :: rest =>
    if c == ';' then [] :: splitSemi rest
    else
      match splitSemi rest with
      | [] => [[c]]
      | seg :: segs => (c :: seg) :: segs

/-- The command segments of a log: each line stripped as a whole, then split
on `;` (line 128); the segments themselves are not stripped. -/
def logSegments (lines : List String) : List String :=
  lines.flatMap (fun l => (splitSemi (pyStripList l.data)).map String.mk)

/-- The nested loop of `analyze_bash_history` (lines 126–135) over an
already-flattened command list: classify and resolve each command, and
append an entry exactly when the technique list is non-empty. -/
def analyzeCommands (cmds : List String) (objs : List Item) :
    Except Unit (List ClassifiedCommand × List Item) :=
  match cmds with
  | [] => Except.ok ([], objs)
  | cmd :: rest =>
    match map_command_to_mitre cmd objs with
    | Except.error e => Except.error e
    | Except.ok (techniques, objs₁) =>
      match analyzeCommands rest objs₁ with
      | Except.error e => Except.error e
      | Except.ok (results, objs₂) =>
        Except.ok
          ((if techniques.isEmpty then results
            else ClassifiedCommand.mk cmd techniques :: results), objs₂)

/-- `analyze_bash_history` (lines 122–137) on the list of log lines. -/
def analyze_bash_history (lines : List String) (objs : List Item) :
    Except Unit (List ClassifiedCommand × List Item) :=
  analyzeCommands (logSegments lines) objs

/-- Modelled from the spec (§3, §9): the classifier as an explicit ordered
sequence of (predicate, outcome) pairs, the reformulation of the `elif`
ladder the specification mandates. -/
def ruleTable : List ((List Char → Bool) × (List Char → List String)) :=
  [ (reCd, fun _ => ["T1083"]),
    (reLs, fun _ => ["T1083"]),
    (reCat, fun s =>
      if hasWord "passwd" s then ["T1005", "T1087"]
      else if hasWord "sudoers" s then ["T1005", "T1087"]
      else ["T1005"]),
    (reEchoHistory, fun _ => ["T1070"]),
    (reWhoami, fun _ => ["T1078"]),
    (reClear, fun _ => []),
    (reUname, fun _ => ["T1005"]),
    (reSudo, fun _ => ["T1078"]),
    (reHistory, fun _ => ["T1059"]),
    (rePoweroffReboot, fun _ => ["T1086"]),
    (reWgetCurl, fun _ => ["T1105"]),
    (reNetstatSs, fun _ => ["T1049"]),
    (reChmodChown, fun _ => ["T1070"]),
    (reFindGrep, fun _ => ["T1083"]),
    (reSystemctl, fun _ => ["T1060"]),
    (rePsTop, fun _ => ["T1083"]),
    (reTraceroutePing, fun _ => ["T1069"]) ]

/-- First-match-wins dispatch over an ordered rule table, with the
"Unknown" sentinel when no rule matches (spec §3, §4.1). -/
def evalRules : List ((List Char → Bool) × (List Char → List String)) →
    List Char → List String
  | [], _ => ["Unknown"]
  | (p, out) :: rest, s => if p s then out s else evalRules rest s

/-- One resolver step changes a dataset record at most by installing the
solutions fallback: `b` is `a` unchanged, or `a` had falsy solutions and `b`
is its mutated form. -/
def evolved (a b : Item) : Prop :=
  b = a ∨ (solFalsy a.solutions = true ∧ b = mutateItem a)

/-- Sample dataset record with identifier `T1005` and no solutions. -/
def itemT1005 : Item :=
  { external_references := some [{ external_id := some "T1005" }]
    name := some "Data from Local System"
    description := some "desc1005"
    solutions := none }

/-- Sample dataset record whose `external_references` list is empty, the
shape on which line 104 raises `IndexError`. -/
def itemEmptyRefs : Item :=
  { external_references := some [] }

/-- Sample dataset record whose primary identifier `T1005.001` merely
contains `T1005` as a substring. -/
def itemSubId : Item :=
  { external_references := some [{ external_id := some "T1005.001" }]
    name := some "Sub-technique record"
    description := some "sub desc"
    solutions := none }

/-! Helper lemmas about stripping and the pattern matchers. -/

lemma dropWhile_head_not {p : Char → Bool} :
    ∀ {l : List Char} {c : Char} {r : List Char},
      l.dropWhile p = c :: r → p c = false := by
  intro l
  induction l with
  | nil => intro c r h; simp [List.dropWhile] at h
  | cons a t ih =>
    intro c r h
    cases ha : p a <;> simp [List.dropWhile_cons, ha] at h
    · exact h.1 ▸ ha
    · exact ih h

lemma prefix_head {l m : List Char} {c : Char} {r : List Char}
    (h : l <+: m) (hl : l = c :: r) : ∃ t, m = c :: t := by
  obtain ⟨t, rfl⟩ := h
  subst hl
  exact ⟨r ++ t, rfl⟩

lemma dropTrail_prefix_self (s : List Char) : dropTrail s <+: s := by
  have h1 : s.reverse.dropWhile isPySpace <:+ s.reverse :=
    List.dropWhile_suffix _
  have h2 := List.reverse_prefix.mpr h1
  simpa [dropTrail] using h2

lemma pyStripList_head_not {s : List Char} {c : Char} {r : List Char}
    (h : pyStripList s = c :: r) : isPySpace c = false := by
  rw [pyStripList] at h
  obtain ⟨t, ht⟩ := prefix_head (dropTrail_prefix_self (s.dropWhile isPySpace)) h
  exact dropWhile_head_not ht

lemma dropWhile_append_all {p : Char → Bool} :
    ∀ {a : List Char} (s : List Char), a.all p = true →
      (a ++ s).dropWhile p = s.dropWhile p := by
  intro a
  induction a with
  | nil => intro s _; rfl
  | cons x t ih =>
    intro s h
    simp only [List.all_cons, Bool.and_eq_true] at h
    simp [List.dropWhile_cons, h.1, ih s h.2]

lemma dropTrail_append_all {b : List Char} (s : List Char)
    (h : b.all isPySpace = true) : dropTrail (s ++ b) = dropTrail s := by
  rw [dropTrail, dropTrail, List.reverse_append,
    dropWhile_append_all _ (by simpa using h)]

lemma pyStripList_all_space {s : List Char} (h : s.all isPySpace = true) :
    pyStripList s = [] := by
  have h1 : s.dropWhile isPySpace = [] :=
    List.dropWhile_eq_nil_iff.mpr (fun x hx => by
      have := List.all_eq_true.mp h x hx
      simpa using this)
  rw [pyStripList, h1]
  rfl

lemma matchStar_cons_not {p : Char → Bool} {k : List Char → Bool} {c : Char}
    {r : List Char} (h : p c = false) :
    matchStar p k (c :: r) = k (c :: r) := by
  simp [matchStar, h]

lemma matchStar_stripped {k : List Char → Bool} {s : List Char}
    (h : ∀ c r, s = c :: r → isPySpace c = false) :
    matchStar isPySpace k s = k s := by
  cases s with
  | nil => rfl
  | cons c r => exact matchStar_cons_not (h c r rfl)

lemma matchLit_true_iff :
    ∀ (l : List Char) (k : List Char → Bool) (s : List Char),
      matchLit l k s = true ↔ ∃ r, s = l ++ r ∧ k r = true := by
  intro l
  induction l with
  | nil => intro k s; simp [matchLit]
  | cons a l' ih =>
    intro k s
    cases s with
    | nil => simp [matchLit]
    | cons c s' =>
      simp only [matchLit, Bool.and_eq_true, beq_iff_eq, ih, List.cons_append,
        List.cons.injEq]
      constructor
      · rintro ⟨rfl, r, rfl, hk⟩
        exact ⟨r, ⟨rfl, rfl⟩, hk⟩
      · rintro ⟨r, ⟨rfl, rfl⟩, hk⟩
        exact ⟨rfl, r, rfl, hk⟩

lemma matchLit_head_mismatch {a c : Char} {l s : List Char}
    {k : List Char → Bool} (h : (a == c) = false) :
    matchLit (a :: l) k (c :: s) = false := by
  simp [matchLit, h]

/-! The classifier as first-match-wins dispatch over the ordered table. -/

lemma classify_eq_evalRules (c : String) :
    classify c = evalRules ruleTable (pyStripList c.data) := rfl

lemma evalRules_append_false {s : List Char}
    {l : List ((List Char → Bool) × (List Char → List String))} :
    ∀ {pre}, (∀ r ∈ pre, r.1 s = false) →
      evalRules (pre ++ l) s = evalRules l s := by
  intro pre
  induction pre with
  | nil => intro _; rfl
  | cons hd tl ih =>
    intro h
    have h1 : hd.1 s = false := h hd (by simp)
    obtain ⟨p, out⟩ := hd
    simp only at h1
    rw [List.cons_append, evalRules, h1]
    simp only [Bool.false_eq_true, if_false]
    exact ih (fun r hr => h r (by simp [hr]))

lemma evalRules_all_false {s : List Char} :
    ∀ {table}, (∀ r ∈ table, r.1 s = false) →
      evalRules table s = ["Unknown"] := by
  intro table
  induction table with
  | nil => intro _; rfl
  | cons hd tl ih =>
    intro h
    have h1 : hd.1 s = false := h hd (by simp)
    obtain ⟨p, out⟩ := hd
    simp only at h1
    rw [evalRules, h1]
    simp only [Bool.false_eq_true, if_false]
    exact ih (fun r hr => h r (by simp [hr]))

/-! Helper lemmas about the resolver scan. -/

lemma findMatchIdx_none {t : String} :
    ∀ {objs : List Item},
      (∀ item ∈ objs, ∃ e, primaryExtId item = Except.ok e ∧
        strIn t e = false) →
      findMatchIdx t objs = Except.ok none := by
  intro objs
  induction objs with
  | nil => intro _; rfl
  | cons item rest ih =>
    intro h
    obtain ⟨e, he, hin⟩ := h item (by simp)
    rw [findMatchIdx, he]
    simp only [hin, Bool.false_eq_true, if_false,
      ih (fun it hit => h it (by simp [hit])), Except.map, Option.map_none']

lemma findMatchIdx_spec (t : String) :
    ∀ (objs : List Item) (i : Nat),
      findMatchIdx t objs = Except.ok (some i) →
      i < objs.length ∧
      (∃ e, primaryExtId (objs.getD i placeholderItem) = Except.ok e ∧
        strIn t e = true) ∧
      (∀ j, j < i →
        ∃ e, primaryExtId (objs.getD j placeholderItem) = Except.ok e ∧
          strIn t e = false) := by
  intro objs
  induction objs with
  | nil => intro i h; simp [findMatchIdx] at h
  | cons item rest ih =>
    intro i h
    rw [findMatchIdx] at h
    cases hp : primaryExtId item with
    | error e => rw [hp] at h; cases h
    | ok ext =>
      rw [hp] at h
      dsimp only at h
      by_cases hin : strIn t ext = true
      · rw [if_pos hin] at h
        have hi : i = 0 := by
          cases h
          rfl
        subst hi
        refine ⟨Nat.succ_pos _, ⟨ext, by simpa using hp, hin⟩, ?_⟩
        intro j hj
        exact absurd hj (Nat.not_lt_zero j)
      · rw [if_neg hin] at h
        cases h2 : findMatchIdx t rest with
        | error e => rw [h2] at h; cases h
        | ok o =>
          rw [h2] at h
          cases o with
          | none => simp [Except.map] at h
          | some i' =>
            have hi : i = i' + 1 := by
              simp [Except.map] at h
              omega
            subst hi
            obtain ⟨hlt, hmatch, hpre⟩ := ih i' h2
            refine ⟨Nat.succ_lt_succ hlt, by simpa using hmatch, ?_⟩
            intro j hj
            cases j with
            | zero =>
              exact ⟨ext, by simpa using hp, by simpa using hin⟩
            | succ j' =>
              have := hpre j' (Nat.lt_of_succ_lt_succ hj)
              simpa using this

/-! How one resolver step may change the dataset, and why the state reached
after a full analysis run is a fixpoint. -/

lemma solFalsy_mutate (a : Item) : solFalsy (mutateItem a).solutions = false := rfl

lemma solFalsy_applyFallback (a : Item) :
    solFalsy (applyFallback a).solutions = false := by
  rw [applyFallback]
  split
  · rfl
  · next h => simpa using h

lemma applyFallback_of_not_falsy {a : Item} (h : solFalsy a.solutions = false) :
    applyFallback a = a := by
  rw [applyFallback, h]
  simp

lemma evolved_refl (a : Item) : evolved a a := Or.inl rfl

lemma evolved_applyFallback (a : Item) : evolved a (applyFallback a) := by
  rw [applyFallback]
  split
  · next h => exact Or.inr ⟨h, rfl⟩
  · exact Or.inl rfl

lemma evolved_stable {a b : Item} (hab : evolved a b)
    (h : solFalsy a.solutions = false) : b = a := by
  rcases hab with rfl | ⟨hf, _⟩
  · rfl
  · rw [h] at hf; cases hf

lemma evolved_trans {a b c : Item} (h1 : evolved a b) (h2 : evolved b c) :
    evolved a c := by
  rcases h1 with rfl | ⟨hf, rfl⟩
  · exact h2
  · rcases h2 with rfl | ⟨hf2, rfl⟩
    · exact Or.inr ⟨hf, rfl⟩
    · rw [solFalsy_mutate] at hf2; cases hf2

lemma evolved_extRefs {a b : Item} (h : evolved a b) :
    b.external_references = a.external_references := by
  rcases h with rfl | ⟨_, rfl⟩ <;> rfl

lemma primaryExtId_evolved {a b : Item} (h : evolved a b) :
    primaryExtId b = primaryExtId a := by
  rw [primaryExtId, primaryExtId, evolved_extRefs h]

lemma forall₂_evolved_refl : ∀ (l : List Item), List.Forall₂ evolved l l := by
  intro l
  induction l with
  | nil => exact List.Forall₂.nil
  | cons a t ih => exact List.Forall₂.cons (evolved_refl a) ih

lemma forall₂_evolved_trans :
    ∀ {l m n : List Item}, List.Forall₂ evolved l m →
      List.Forall₂ evolved m n → List.Forall₂ evolved l n := by
  intro l m n h1
  induction h1 generalizing n with
  | nil => intro h2; cases h2; exact List.Forall₂.nil
  | cons hab h ih =>
    intro h2
    cases h2 with
    | cons hbc h2' => exact List.Forall₂.cons (evolved_trans hab hbc) (ih h2')

lemma findMatchIdx_evolved {t : String} :
    ∀ {l m : List Item}, List.Forall₂ evolved l m →
      findMatchIdx t m = findMatchIdx t l := by
  intro l m h
  induction h with
  | nil => rfl
  | cons hab h ih =>
    simp only [findMatchIdx, primaryExtId_evolved hab, ih]

lemma forall₂_getD {d : Item} :
    ∀ {l m : List Item}, List.Forall₂ evolved l m →
      ∀ i, i < l.length → evolved (l.getD i d) (m.getD i d) := by
  intro l m h
  induction h with
  | nil => intro i hi; simp at hi
  | cons hab h ih =>
    intro i hi
    cases i with
    | zero => simpa using hab
    | succ i' =>
      simp only [List.getD_cons_succ]
      exact ih i' (by simpa using hi)

lemma set_getD {x d : Item} :
    ∀ {l : List Item} {i : Nat}, i < l.length → (l.set i x).getD i d = x := by
  intro l
  induction l with
  | nil => intro i hi; simp at hi
  | cons a t ih =>
    intro i hi
    cases i with
    | zero => rfl
    | succ i' =>
      simp only [List.set_cons_succ, List.getD_cons_succ]
      exact ih (by simpa using hi)

lemma getD_set_self {x d : Item} :
    ∀ {l : List Item} {i : Nat}, l.getD i d = x → l.set i x = l := by
  intro l
  induction l with
  | nil => intro i _; rfl
  | cons a t ih =>
    intro i h
    cases i with
    | zero =>
      simp only [List.getD_cons_zero] at h
      rw [List.set_cons_zero, h]
    | succ i' =>
      simp only [List.getD_cons_succ] at h
      rw [List.set_cons_succ, ih h]

lemma forall₂_set {x d : Item} :
    ∀ {l : List Item} {i : Nat}, evolved (l.getD i d) x →
      List.Forall₂ evolved l (l.set i x) := by
  intro l
  induction l with
  | nil => intro i _; exact List.Forall₂.nil
  | cons a t ih =>
    intro i h
    cases i with
    | zero =>
      rw [List.set_cons_zero]
      exact List.Forall₂.cons (by simpa using h) (forall₂_evolved_refl t)
    | succ i' =>
      rw [List.set_cons_succ]
      exact List.Forall₂.cons (evolved_refl a) (ih (by simpa using h))

lemma resolveOne_evolved {t : String} {objs : List Item} {info : Item}
    {objs' : List Item} (h : resolveOne t objs = Except.ok (info, objs')) :
    List.Forall₂ evolved objs objs' := by
  rw [resolveOne] at h
  cases hf : findMatchIdx t objs with
  | error e => rw [hf] at h; cases h
  | ok o =>
    rw [hf] at h
    cases o with
    | none =>
      dsimp only at h
      simp only [Except.ok.injEq, Prod.mk.injEq] at h
      obtain ⟨-, h2⟩ := h
      subst h2
      exact forall₂_evolved_refl objs
    | some i =>
      dsimp only at h
      simp only [Except.ok.injEq, Prod.mk.injEq] at h
      obtain ⟨-, h2⟩ := h
      subst h2
      exact forall₂_set (evolved_applyFallback _)

lemma resolveOne_fix {t : String} {objs o₁ oF : List Item} {info : Item}
    (h : resolveOne t objs = Except.ok (info, o₁))
    (h2 : List.Forall₂ evolved o₁ oF) :
    resolveOne t oF = Except.ok (info, oF) := by
  have hall : List.Forall₂ evolved objs oF :=
    forall₂_evolved_trans (resolveOne_evolved h) h2
  rw [resolveOne] at h
  cases hf : findMatchIdx t objs with
  | error e => rw [hf] at h; cases h
  | ok o =>
    rw [hf] at h
    cases o with
    | none =>
      dsimp only at h
      simp only [Except.ok.injEq, Prod.mk.injEq] at h
      obtain ⟨h1, h3⟩ := h
      subst h3
      rw [resolveOne, findMatchIdx_evolved hall, hf]
      dsimp only
      rw [h1]
    | some i =>
      dsimp only at h
      simp only [Except.ok.injEq, Prod.mk.injEq] at h
      obtain ⟨h1, h3⟩ := h
      have hi : i < objs.length := (findMatchIdx_spec t objs i hf).1
      have ho₁ : o₁.getD i placeholderItem =
          applyFallback (objs.getD i placeholderItem) := by
        rw [← h3]
        exact set_getD hi
      have hev : evolved (o₁.getD i placeholderItem)
          (oF.getD i placeholderItem) := by
        refine forall₂_getD h2 i ?_
        rw [← h3, List.length_set]
        exact hi
      have hoF : oF.getD i placeholderItem =
          applyFallback (objs.getD i placeholderItem) := by
        rw [ho₁] at hev
        rw [evolved_stable hev (solFalsy_applyFallback _)]
      rw [resolveOne, findMatchIdx_evolved hall, hf]
      dsimp only
      rw [hoF, applyFallback_of_not_falsy (solFalsy_applyFallback _),
        getD_set_self hoF, h1]

lemma resolveAll_evolved {ts : List String} :
    ∀ {objs infos objs'}, resolveAll ts objs = Except.ok (infos, objs') →
      List.Forall₂ evolved objs objs' := by
  induction ts with
  | nil =>
    intro objs infos objs' h
    simp only [resolveAll, Except.ok.injEq, Prod.mk.injEq] at h
    obtain ⟨-, h2⟩ := h
    subst h2
    exact forall₂_evolved_refl _
  | cons t ts ih =>
    intro objs infos objs' h
    rw [resolveAll] at h
    cases h1 : resolveOne t objs with
    | error e => rw [h1] at h; cases h
    | ok p =>
      obtain ⟨info, objsa⟩ := p
      rw [h1] at h
      dsimp only at h
      cases hr : resolveAll ts objsa with
      | error e => rw [hr] at h; cases h
      | ok q =>
        obtain ⟨infos', objsb⟩ := q
        rw [hr] at h
        dsimp only at h
        simp only [Except.ok.injEq, Prod.mk.injEq] at h
        obtain ⟨-, h4⟩ := h
        subst h4
        exact forall₂_evolved_trans (resolveOne_evolved h1) (ih hr)

lemma resolveAll_fix {ts : List String} :
    ∀ {objs infos o₁ oF}, resolveAll ts objs = Except.ok (infos, o₁) →
      List.Forall₂ evolved o₁ oF →
      resolveAll ts oF = Except.ok (infos, oF) := by
  induction ts with
  | nil =>
    intro objs infos o₁ oF h h2
    simp only [resolveAll, Except.ok.injEq, Prod.mk.injEq] at h ⊢
    obtain ⟨h1, -⟩ := h
    exact ⟨h1, trivial⟩
  | cons t ts ih =>
    intro objs infos o₁ oF h h2
    rw [resolveAll] at h
    cases h1 : resolveOne t objs with
    | error e => rw [h1] at h; cases h
    | ok p =>
      obtain ⟨info, objsa⟩ := p
      rw [h1] at h
      dsimp only at h
      cases hr : resolveAll ts objsa with
      | error e => rw [hr] at h; cases h
      | ok q =>
        obtain ⟨infos', objsb⟩ := q
        rw [hr] at h
        dsimp only at h
        simp only [Except.ok.injEq, Prod.mk.injEq] at h
        obtain ⟨hinfos, hobjs⟩ := h
        subst hinfos
        subst hobjs
        have hra : List.Forall₂ evolved objsa oF :=
          forall₂_evolved_trans (resolveAll_evolved hr) h2
        have hfix1 : resolveOne t oF = Except.ok (info, oF) :=
          resolveOne_fix h1 hra
        have hfix2 : resolveAll ts oF = Except.ok (infos', oF) := ih hr h2
        rw [resolveAll, hfix1]
        dsimp only
        rw [hfix2]

lemma analyzeCommands_evolved {cmds : List String} :
    ∀ {objs res objs'}, analyzeCommands cmds objs = Except.ok (res, objs') →
      List.Forall₂ evolved objs objs' := by
  induction cmds with
  | nil =>
    intro objs res objs' h
    simp only [analyzeCommands, Except.ok.injEq, Prod.mk.injEq] at h
    obtain ⟨-, h2⟩ := h
    subst h2
    exact forall₂_evolved_refl _
  | cons cmd cmds ih =>
    intro objs res objs' h
    rw [analyzeCommands] at h
    cases h1 : map_command_to_mitre cmd objs with
    | error e => rw [h1] at h; cases h
    | ok p =>
      obtain ⟨techs, objsa⟩ := p
      rw [h1] at h
      dsimp only at h
      cases hr : analyzeCommands cmds objsa with
      | error e => rw [hr] at h; cases h
      | ok q =>
        obtain ⟨res', objsb⟩ := q
        rw [hr] at h
        dsimp only at h
        simp only [Except.ok.injEq, Prod.mk.injEq] at h
        obtain ⟨-, h4⟩ := h
        subst h4
        rw [map_command_to_mitre] at h1
        exact forall₂_evolved_trans (resolveAll_evolved h1) (ih hr)

lemma analyzeCommands_fix {cmds : List String} :
    ∀ {objs res o₁ oF}, analyzeCommands cmds objs = Except.ok (res, o₁) →
      List.Forall₂ evolved o₁ oF →
      analyzeCommands cmds oF = Except.ok (res, oF) := by
  induction cmds with
  | nil =>
    intro objs res o₁ oF h h2
    simp only [analyzeCommands, Except.ok.injEq, Prod.mk.injEq] at h ⊢
    obtain ⟨h1, -⟩ := h
    exact ⟨h1, trivial⟩
  | cons cmd cmds ih =>
    intro objs res o₁ oF h h2
    rw [analyzeCommands] at h
    cases h1 : map_command_to_mitre cmd objs with
    | error e => rw [h1] at h; cases h
    | ok p =>
      obtain ⟨techs, objsa⟩ := p
      rw [h1] at h
      dsimp only at h
      cases hr : analyzeCommands cmds objsa with
      | error e => rw [hr] at h; cases h
      | ok q =>
        obtain ⟨res', objsb⟩ := q
        rw [hr] at h
        dsimp only at h
        simp only [Except.ok.injEq, Prod.mk.injEq] at h
        obtain ⟨hres, hobjs⟩ := h
        subst hobjs
        have hra : List.Forall₂ evolved objsa oF := by
          refine forall₂_evolved_trans ?_ h2
          exact analyzeCommands_evolved hr
        have hm : map_command_to_mitre cmd oF = Except.ok (techs, oF) := by
          rw [map_command_to_mitre] at h1 ⊢
          exact resolveAll_fix h1 hra
        have hfix2 : analyzeCommands cmds oF = Except.ok (res', oF) := ih hr h2
        rw [analyzeCommands, hm]
        dsimp only
        rw [hfix2]
        dsimp only
        rw [hres]

/-! Support lemmas for the analyzer-level and resolver-level claims. -/

lemma isEmpty_length {α : Type} (l : List α) : l.isEmpty = (l.length == 0) := by
  cases l <;> rfl

lemma resolveAll_length {ts : List String} :
    ∀ {objs infos o'}, resolveAll ts objs = Except.ok (infos, o') →
      infos.length = ts.length := by
  induction ts with
  | nil =>
    intro objs infos o' h
    simp only [resolveAll, Except.ok.injEq, Prod.mk.injEq] at h
    rw [← h.1]
    rfl
  | cons t ts ih =>
    intro objs infos o' h
    rw [resolveAll] at h
    cases h1 : resolveOne t objs with
    | error e => rw [h1] at h; cases h
    | ok p =>
      obtain ⟨info, objsa⟩ := p
      rw [h1] at h
      dsimp only at h
      cases hr : resolveAll ts objsa with
      | error e => rw [hr] at h; cases h
      | ok q =>
        obtain ⟨infos', objsb⟩ := q
        rw [hr] at h
        dsimp only at h
        simp only [Except.ok.injEq, Prod.mk.injEq] at h
        obtain ⟨hinfos, -⟩ := h
        subst hinfos
        simp [ih hr]

lemma analyzeCommands_commands {cmds : List String} :
    ∀ {objs res o'}, analyzeCommands cmds objs = Except.ok (res, o') →
      res.map ClassifiedCommand.command =
        cmds.filter (fun c => !(classify c).isEmpty) := by
  induction cmds with
  | nil =>
    intro objs res o' h
    simp only [analyzeCommands, Except.ok.injEq, Prod.mk.injEq] at h
    rw [← h.1]
    rfl
  | cons cmd cmds ih =>
    intro objs res o' h
    rw [analyzeCommands] at h
    cases h1 : map_command_to_mitre cmd objs with
    | error e => rw [h1] at h; cases h
    | ok p =>
      obtain ⟨techs, objsa⟩ := p
      rw [h1] at h
      dsimp only at h
      cases hr : analyzeCommands cmds objsa with
      | error e => rw [hr] at h; cases h
      | ok q =>
        obtain ⟨res', objsb⟩ := q
        rw [hr] at h
        dsimp only at h
        simp only [Except.ok.injEq, Prod.mk.injEq] at h
        obtain ⟨hres, -⟩ := h
        subst hres
        rw [map_command_to_mitre] at h1
        have hlen : techs.length = (classify cmd).length := resolveAll_length h1
        have hise : techs.isEmpty = (classify cmd).isEmpty := by
          rw [isEmpty_length, isEmpty_length, hlen]
        rw [List.filter_cons, hise]
        cases hc : (classify cmd).isEmpty
        · simp [hc, ih hr]
        · simp [hc, ih hr]

lemma analyzeCommands_mem {cmds : List String} :
    ∀ {objs res o'}, analyzeCommands cmds objs = Except.ok (res, o') →
      ∀ e ∈ res, e.command ∈ cmds := by
  induction cmds with
  | nil =>
    intro objs res o' h e he
    simp only [analyzeCommands, Except.ok.injEq, Prod.mk.injEq] at h
    rw [← h.1] at he
    simp at he
  | cons cmd cmds ih =>
    intro objs res o' h e he
    rw [analyzeCommands] at h
    cases h1 : map_command_to_mitre cmd objs with
    | error e' => rw [h1] at h; cases h
    | ok p =>
      obtain ⟨techs, objsa⟩ := p
      rw [h1] at h
      dsimp only at h
      cases hr : analyzeCommands cmds objsa with
      | error e' => rw [hr] at h; cases h
      | ok q =>
        obtain ⟨res', objsb⟩ := q
        rw [hr] at h
        dsimp only at h
        simp only [Except.ok.injEq, Prod.mk.injEq] at h
        obtain ⟨hres, -⟩ := h
        subst hres
        by_cases ht : techs.isEmpty
        · rw [if_pos ht] at he
          exact List.mem_cons_of_mem _ (ih hr e he)
        · rw [if_neg ht] at he
          rcases List.mem_cons.mp he with rfl | he'
          · exact List.mem_cons_self _ _
          · exact List.mem_cons_of_mem _ (ih hr e he')

lemma pyStripList_clear (ws₁ ws₂ : List Char)
    (h₁ : ws₁.all isPySpace = true) (h₂ : ws₂.all isPySpace = true) :
    pyStripList (ws₁ ++ ("clear".data ++ ws₂)) = "clear".data := by
  rw [pyStripList, dropWhile_append_all _ h₁,
    show "clear".data ++ ws₂ = 'c' :: ("lear".data ++ ws₂) from rfl,
    List.dropWhile_cons, if_neg (by decide : ¬(isPySpace 'c' = true)),
    show 'c' :: ("lear".data ++ ws₂) = "clear".data ++ ws₂ from rfl,
    dropTrail_append_all _ h₂]
  decide

lemma applyFallback_nonempty (a : Item) :
    ∃ x xs, (applyFallback a).solutions = some (x :: xs) := by
  cases hsol : a.solutions with
  | none =>
    refine ⟨a.description.getD "No description available.", [], ?_⟩
    rw [applyFallback, hsol]
    simp [solFalsy, mutateItem]
  | some l =>
    cases l with
    | nil =>
      refine ⟨a.description.getD "No description available.", [], ?_⟩
      rw [applyFallback, hsol]
      simp [solFalsy, mutateItem]
    | cons y ys =>
      refine ⟨y, ys, ?_⟩
      rw [applyFallback, hsol]
      simp [solFalsy, hsol]

lemma findMatchIdx_error {t : String} {bad : Item} {rest : List Item}
    (hbad : bad.external_references = some []) :
    ∀ {pre : List Item},
      (∀ item ∈ pre, ∃ e, primaryExtId item = Except.ok e ∧
        strIn t e = false) →
      findMatchIdx t (pre ++ bad :: rest) = Except.error () := by
  have hp : primaryExtId bad = Except.error () := by
    rw [primaryExtId, hbad]
  intro pre
  induction pre with
  | nil =>
    intro _
    rw [List.nil_append, findMatchIdx, hp]
  | cons it tl ih =>
    intro h
    obtain ⟨e, he, hin⟩ := h it (by simp)
    rw [List.cons_append, findMatchIdx, he]
    dsimp only
    rw [if_neg (by simp [hin]), ih (fun x hx => h x (by simp [hx]))]
    rfl

/-! Claim theorems. -/

/-- C1 counterexample: a command matching no rule classifies to
["Unknown"] and resolves to the placeholder record, but the placeholder's
solutions list is ["No solutions available."], not
["No description available."] as the claim states. -/
theorem unknown_placeholder_solutions_counterexample :
    classify "xyz" = ["Unknown"] ∧
    map_command_to_mitre "xyz" [] = Except.ok ([placeholderItem], []) ∧
    placeholderItem.solutions ≠ some ["No description available."] :=
  ⟨rfl, rfl, by decide⟩

/-- C1 (amended): a command matching none of the classification rules
classifies to exactly ["Unknown"], and resolving the "Unknown" sentinel
against a dataset in which every record's primary external identifier is
readable and does not contain "Unknown" returns the placeholder record —
name "Unknown Technique", description "No description available.",
solutions ["No solutions available."] — leaving the dataset unchanged. -/
theorem unknown_fallback_amended (c : String) (objs : List Item)
    (hc : ∀ r ∈ ruleTable, r.1 (pyStripList c.data) = false)
    (hobjs : ∀ item ∈ objs, ∃ e, primaryExtId item = Except.ok e ∧
      strIn "Unknown" e = false) :
    classify c = ["Unknown"] ∧
    map_command_to_mitre c objs = Except.ok ([placeholderItem], objs) := by
  have h1 : classify c = ["Unknown"] := by
    rw [classify_eq_evalRules]
    exact evalRules_all_false hc
  refine ⟨h1, ?_⟩
  have hres : resolveOne "Unknown" objs =
      Except.ok (placeholderItem, objs) := by
    rw [resolveOne, findMatchIdx_none hobjs]
    rfl
  rw [map_command_to_mitre, h1, resolveAll, hres]
  rfl

/-- C1 witness: the amended statement at the command `id` and a one-record
dataset whose identifier `T1005` does not contain "Unknown". -/
theorem unknown_fallback_amended_witness :
    classify "id" = ["Unknown"] ∧
    map_command_to_mitre "id" [itemT1005] =
      Except.ok ([placeholderItem], [itemT1005]) :=
  unknown_fallback_amended "id" [itemT1005] (by decide)
    (by
      intro item hm
      rw [List.mem_singleton] at hm
      subst hm
      exact ⟨"T1005", rfl, by decide⟩)

/-- C2 counterexample: a record whose primary external identifier
`T1005.001` merely CONTAINS the technique id `T1005` is matched by the
scan, although the claim says such records are not matched. -/
theorem substring_match_counterexample :
    findMatchIdx "T1005" [itemSubId] = Except.ok (some 0) ∧
    itemSubId.external_references =
      some [{ external_id := some "T1005.001" }] ∧
    some "T1005.001" ≠ some "T1005" :=
  ⟨rfl, rfl, by decide⟩

/-- C2 (amended): resolution returns the record of the first dataset entry
whose primary external identifier CONTAINS the technique id as a substring
(Python `in`), no earlier entry containing it; the returned record and the
updated dataset come from exactly that entry. -/
theorem resolve_first_substring_match (t : String) (objs : List Item)
    (i : Nat) (h : findMatchIdx t objs = Except.ok (some i)) :
    i < objs.length ∧
    (∃ e, primaryExtId (objs.getD i placeholderItem) = Except.ok e ∧
      strIn t e = true) ∧
    (∀ j, j < i →
      ∃ e, primaryExtId (objs.getD j placeholderItem) = Except.ok e ∧
        strIn t e = false) ∧
    resolveOne t objs =
      Except.ok (applyFallback (objs.getD i placeholderItem),
        objs.set i (applyFallback (objs.getD i placeholderItem))) := by
  obtain ⟨h1, h2, h3⟩ := findMatchIdx_spec t objs i h
  refine ⟨h1, h2, h3, ?_⟩
  rw [resolveOne, h]

/-- C2 witness: the matched entry of a singleton dataset carries an
identifier containing `T1005`. -/
theorem resolve_first_substring_match_witness :
    ∃ e, primaryExtId ([itemT1005].getD 0 placeholderItem) = Except.ok e ∧
      strIn "T1005" e = true :=
  (resolve_first_substring_match "T1005" [itemT1005] 0 rfl).2.1

/-- C3 counterexample: analyzing `uname` against a dataset whose matching
record has no solutions rewrites that record in place — the record after
the run differs from the record before it, so `analyze` does mutate the
reference dataset. -/
theorem analyze_mutates_dataset_counterexample :
    analyze_bash_history ["uname"] [itemT1005] =
      Except.ok ([ClassifiedCommand.mk "uname" [mutateItem itemT1005]],
        [mutateItem itemT1005]) ∧
    mutateItem itemT1005 ≠ itemT1005 :=
  ⟨rfl, by decide⟩

/-- C3 (amended): the dataset state reached after one `analyze` run is a
fixpoint — running `analyze` again on the same log from that state
reproduces exactly the same results and leaves the dataset unchanged, so
two consecutive runs are structurally identical; the first run, however,
may add `solutions` entries to matched dataset records. -/
theorem analyze_fixpoint (lines : List String) (objs : List Item)
    (res : List ClassifiedCommand) (oF : List Item)
    (h : analyze_bash_history lines objs = Except.ok (res, oF)) :
    analyze_bash_history lines oF = Except.ok (res, oF) := by
  rw [analyze_bash_history] at h ⊢
  exact analyzeCommands_fix h (forall₂_evolved_refl oF)

/-- C3 witness: the fixpoint theorem at the `uname` log and the mutated
one-record dataset produced by the first run. -/
theorem analyze_fixpoint_witness :
    analyze_bash_history ["uname"] [mutateItem itemT1005] =
      Except.ok ([ClassifiedCommand.mk "uname" [mutateItem itemT1005]],
        [mutateItem itemT1005]) :=
  analyze_fixpoint ["uname"] [itemT1005]
    [ClassifiedCommand.mk "uname" [mutateItem itemT1005]]
    [mutateItem itemT1005] rfl

/-- C4 counterexample: the stored command of the second result entry is the
raw segment " whoami", which still carries the leading space the claim says
is trimmed away. -/
theorem command_not_trimmed_counterexample :
    analyze_bash_history ["cd /tmp; whoami"] [] =
      Except.ok ([ClassifiedCommand.mk "cd /tmp" [placeholderItem],
        ClassifiedCommand.mk " whoami" [placeholderItem]], []) ∧
    (" whoami" : String) ≠ pyStrip " whoami" :=
  ⟨rfl, by decide⟩

/-- C4 (amended): every result entry stores its command exactly as
extracted — one of the `;`-segments of a whole-line-stripped log line,
without any per-segment trimming or other normalization. -/
theorem command_stored_as_extracted (lines : List String) (objs : List Item)
    (res : List ClassifiedCommand) (o' : List Item)
    (h : analyze_bash_history lines objs = Except.ok (res, o')) :
    ∀ e ∈ res, e.command ∈ logSegments lines := by
  rw [analyze_bash_history] at h
  exact analyzeCommands_mem h

/-- C4 witness: the amended statement at a one-line log. -/
theorem command_stored_as_extracted_witness :
    ("ls" : String) ∈ logSegments ["ls"] :=
  command_stored_as_extracted ["ls"] []
    [ClassifiedCommand.mk "ls" [placeholderItem]] [] rfl
    (ClassifiedCommand.mk "ls" [placeholderItem]) (by decide)

/-- C5: `cat /etc/passwd` and `cat /etc/sudoers` classify to
["T1005", "T1087"] in that order, and any other command matching the `cat`
rule whose text contains neither "passwd" nor "sudoers" as a whole word
classifies to exactly ["T1005"]. -/
theorem cat_rule_techniques :
    classify "cat /etc/passwd" = ["T1005", "T1087"] ∧
    classify "cat /etc/sudoers" = ["T1005", "T1087"] ∧
    ∀ c : String, reCat (pyStripList c.data) = true →
      hasWord "passwd" (pyStripList c.data) = false →
      hasWord "sudoers" (pyStripList c.data) = false →
      classify c = ["T1005"] := by
  refine ⟨by decide, by decide, ?_⟩
  intro c hcat hpw hsd
  have hstr : ∀ ch r, pyStripList c.data = ch :: r → isPySpace ch = false :=
    fun ch r h => pyStripList_head_not h
  have hcat' := hcat
  rw [reCat, matchStar_stripped hstr] at hcat'
  obtain ⟨r, hr, -⟩ := (matchLit_true_iff _ _ _).mp hcat'
  have hr' : pyStripList c.data = 'c' :: 'a' :: 't' :: r := hr
  have hcd : reCd (pyStripList c.data) = false := by
    rw [hr', reCd, matchStar_cons_not (by decide : isPySpace 'c' = false)]
    simp only [show "cd".data = ['c', 'd'] from rfl, matchLit,
      show (('d' : Char) == 'a') = false from by decide,
      Bool.false_and, Bool.and_false]
  have hls : reLs (pyStripList c.data) = false := by
    rw [hr', reLs, matchStar_cons_not (by decide : isPySpace 'c' = false)]
    exact matchLit_head_mismatch (by decide)
  rw [classify_eq_evalRules]
  simp [ruleTable, evalRules, hcd, hls, hcat, hpw, hsd]

/-- C5 witness: the universal part of the statement at `cat foo.txt`. -/
theorem cat_rule_techniques_witness :
    classify "cat foo.txt" = ["T1005"] :=
  cat_rule_techniques.2.2 "cat foo.txt" (by decide) (by decide) (by decide)

/-- C6: `clear` surrounded by arbitrary whitespace classifies to the empty
technique list, and the one-line log `cd /tmp; clear; whoami` produces
exactly two result entries — the `cd /tmp` entry and the `whoami` entry, in
that order — with the `clear` command omitted. -/
theorem clear_rule_excluded (ws₁ ws₂ : List Char)
    (h₁ : ws₁.all isPySpace = true) (h₂ : ws₂.all isPySpace = true) :
    classify (String.mk (ws₁ ++ ("clear".data ++ ws₂))) = [] ∧
    analyze_bash_history ["cd /tmp; clear; whoami"] [] =
      Except.ok ([ClassifiedCommand.mk "cd /tmp" [placeholderItem],
        ClassifiedCommand.mk " whoami" [placeholderItem]], []) := by
  constructor
  · rw [classify_eq_evalRules,
      show (String.mk (ws₁ ++ ("clear".data ++ ws₂))).data
        = ws₁ ++ ("clear".data ++ ws₂) from rfl,
      pyStripList_clear ws₁ ws₂ h₁ h₂]
    decide
  · rfl

/-- C6 witness: the statement at one space of leading and two spaces of
trailing whitespace. -/
theorem clear_rule_excluded_witness :
    classify (String.mk (" ".data ++ ("clear".data ++ "  ".data))) = [] ∧
    analyze_bash_history ["cd /tmp; clear; whoami"] [] =
      Except.ok ([ClassifiedCommand.mk "cd /tmp" [placeholderItem],
        ClassifiedCommand.mk " whoami" [placeholderItem]], []) :=
  clear_rule_excluded " ".data "  ".data (by decide) (by decide)

/-- C7: rule evaluation is first-match-wins over the ordered table: when
every rule before index `i` fails on the stripped command and rule `i`
matches, `classify` returns exactly rule `i`'s outcome, and no later rule
contributes. -/
theorem first_match_wins (c : String) (i : Nat)
    (pr : (List Char → Bool) × (List Char → List String))
    (rest : List ((List Char → Bool) × (List Char → List String)))
    (hsplit : ruleTable.drop i = pr :: rest)
    (hmatch : pr.1 (pyStripList c.data) = true)
    (hfirst : ∀ r ∈ ruleTable.take i, r.1 (pyStripList c.data) = false) :
    classify c = pr.2 (pyStripList c.data) := by
  rw [classify_eq_evalRules]
  have hsplit2 : ruleTable = ruleTable.take i ++ pr :: rest := by
    rw [← hsplit, List.take_append_drop]
  rw [hsplit2, evalRules_append_false hfirst]
  obtain ⟨p, out⟩ := pr
  simp only at hmatch
  rw [evalRules, hmatch]
  simp

/-- C7 witness: `sudo cat /etc/passwd` fails rules 0–6 and matches the
`sudo` rule at index 7, whose outcome ["T1078"] is the whole result even
though `passwd` appears in the text. -/
theorem first_match_wins_witness :
    classify "sudo cat /etc/passwd" = ["T1078"] :=
  first_match_wins "sudo cat /etc/passwd" 7
    (reSudo, fun _ => ["T1078"]) (ruleTable.drop 8)
    (by rfl) (by decide) (by decide)

/-- C8: the commands of the result are exactly the extracted segments whose
classification is non-empty — empty or all-whitespace segments classify to
["Unknown"], are therefore kept, and contribute an entry. -/
theorem empty_segments_kept (lines : List String) (objs : List Item)
    (res : List ClassifiedCommand) (o' : List Item)
    (h : analyze_bash_history lines objs = Except.ok (res, o')) :
    res.map ClassifiedCommand.command =
      (logSegments lines).filter (fun c => !(classify c).isEmpty) ∧
    ∀ c : String, c.data.all isPySpace = true → classify c = ["Unknown"] := by
  constructor
  · rw [analyze_bash_history] at h
    exact analyzeCommands_commands h
  · intro c hc
    rw [classify_eq_evalRules, pyStripList_all_space hc]
    decide

/-- C8 witness: the log `x; ` yields the segments `x` and the empty
segment, and both appear as result entries. -/
theorem empty_segments_kept_witness :
    ([ClassifiedCommand.mk "x" [placeholderItem],
      ClassifiedCommand.mk "" [placeholderItem]].map
        ClassifiedCommand.command) =
      (logSegments ["x; "]).filter (fun c => !(classify c).isEmpty) :=
  (empty_segments_kept ["x; "] []
    [ClassifiedCommand.mk "x" [placeholderItem],
      ClassifiedCommand.mk "" [placeholderItem]] [] rfl).1

/-- C9: every record the resolver returns has a non-empty solutions list,
and when the matched dataset record's solutions are absent or empty the
returned solutions are the one-element list holding that record's
description (or the placeholder description when absent). -/
theorem resolver_solutions_nonempty (t : String) (objs : List Item)
    (info : Item) (objs' : List Item)
    (h : resolveOne t objs = Except.ok (info, objs')) :
    (∃ x xs, info.solutions = some (x :: xs)) ∧
    ∀ i, findMatchIdx t objs = Except.ok (some i) →
      solFalsy (objs.getD i placeholderItem).solutions = true →
      info.solutions = some [(objs.getD i placeholderItem).description.getD
        "No description available."] := by
  rw [resolveOne] at h
  cases hf : findMatchIdx t objs with
  | error e => rw [hf] at h; cases h
  | ok o =>
    rw [hf] at h
    cases o with
    | none =>
      dsimp only at h
      simp only [Except.ok.injEq, Prod.mk.injEq] at h
      obtain ⟨h1, -⟩ := h
      subst h1
      constructor
      · exact ⟨"No solutions available.", [], rfl⟩
      · intro i hi
        simp at hi
    | some i =>
      dsimp only at h
      simp only [Except.ok.injEq, Prod.mk.injEq] at h
      obtain ⟨h1, -⟩ := h
      subst h1
      constructor
      · exact applyFallback_nonempty _
      · intro i' hi' hfal
        simp only [Except.ok.injEq, Option.some.injEq] at hi'
        subst hi'
        rw [applyFallback, hfal]
        simp [mutateItem]

/-- C9 witness: resolving `T1005` against a record lacking solutions yields
the one-element solutions list holding its description. -/
theorem resolver_solutions_nonempty_witness :
    (mutateItem itemT1005).solutions = some ["desc1005"] :=
  (resolver_solutions_nonempty "T1005" [itemT1005] (mutateItem itemT1005)
    [mutateItem itemT1005] rfl).2 0 rfl rfl

/-- C10 counterexample: with a dataset holding a matching record before a
record with an empty external-references list, resolution succeeds — the
lazy scan stops at the earlier match and never reaches the bad record, so
no IndexError is raised, contrary to the claim. -/
theorem lazy_scan_counterexample :
    itemEmptyRefs.external_references = some [] ∧
    resolveOne "T1005" [itemT1005, itemEmptyRefs] =
      Except.ok (mutateItem itemT1005, [mutateItem itemT1005, itemEmptyRefs]) :=
  ⟨rfl, rfl⟩

/-- C10 (amended): resolution is not total: when the scan reaches a record
whose external-references list is empty — that is, when no earlier record
matched — the lookup raises IndexError, modelled as an error aborting the
resolution. -/
theorem empty_refs_error (t : String) (pre : List Item) (bad : Item)
    (rest : List Item) (hbad : bad.external_references = some [])
    (hpre : ∀ item ∈ pre, ∃ e, primaryExtId item = Except.ok e ∧
      strIn t e = false) :
    resolveOne t (pre ++ bad :: rest) = Except.error () := by
  rw [resolveOne, findMatchIdx_error hbad hpre]

/-- C10 witness: an id matching nothing errs on a dataset whose second
record has an empty external-references list. -/
theorem empty_refs_error_witness :
    resolveOne "T9999" [itemT1005, itemEmptyRefs] = Except.error () :=
  empty_refs_error "T9999" [itemT1005] itemEmptyRefs [] rfl
    (by
      intro item hm
      rw [List.mem_singleton] at hm
      subst hm
      exact ⟨"T1005", rfl, by decide⟩)

end MitreMapping
